import Mathlib

/-!
Verification of the CAMAC DAQ core: a shallow embedding of the
address codec, function-code classification, simulated backend,
configuration parser and the auto-probing VISA backend, together with
theorems settling the specified properties.
-/

set_option maxRecDepth 4000

/-! ### camacdaq_py/camac_api.py -/

/-- READ_FUNCS = set(range(0, 8)) -/
def READ_FUNCS : Finset ℤ := Finset.Icc 0 7

/-- WRITE_FUNCS = set(range(16, 24)) -/
def WRITE_FUNCS : Finset ℤ := Finset.Icc 16 23

/-- CTRL_FUNCS = set(range(8, 16)) | set(range(24, 32)) -/
def CTRL_FUNCS : Finset ℤ := Finset.Icc 8 15 ∪ Finset.Icc 24 31

/-- The three function classes of the data model. -/
inductive FunctionClass where
  | Read
  | Write
  | Control
deriving DecidableEq, Repr

/-- Classification of a function code into Read, Write or Control,
as performed by the membership dispatch of CamacMock.cfsa over
READ_FUNCS, WRITE_FUNCS and CTRL_FUNCS; a code matching none of the
three sets (outside 0..31) classifies to none, the invalid outcome. -/
def classify (f : ℤ) : Option FunctionClass :=
  if f ∈ READ_FUNCS then some .Read
  else if f ∈ WRITE_FUNCS then some .Write
  else if f ∈ CTRL_FUNCS then some .Control
  else none

/-- pack_ext: ((branch and 0xFF) shl 24) or ((crate and 0xFF) shl 16)
or ((station and 0xFF) shl 8) or (address and 0xFF). -/
def pack_ext (branch crate station address : ℕ) : ℕ :=
  ((branch &&& 0xFF) <<< 24) ||| ((crate &&& 0xFF) <<< 16) |||
    ((station &&& 0xFF) <<< 8) ||| (address &&& 0xFF)

/-- unpack_ext: the four byte fields extracted by shift and mask. -/
def unpack_ext (ext : ℕ) : ℕ × ℕ × ℕ × ℕ :=
  ((ext >>> 24) &&& 0xFF, (ext >>> 16) &&& 0xFF, (ext >>> 8) &&& 0xFF, ext &&& 0xFF)

/-- CamacMock.cfsa: mock cycle, dispatching on the function-code class.
The function code is a Python int (possibly negative), the handle and
data are the nonnegative values produced by pack_ext and callers. -/
def mockCfsa (function : ℤ) (ext : ℕ) (data : Option ℕ) : ℕ × Bool :=
  if function ∈ READ_FUNCS then
    (((ext &&& 0xFFFFFF) ^^^ (function.toNat <<< 12)) &&& 0xFFFFFF, true)
  else if function ∈ WRITE_FUNCS then
    (data.getD 0, true)
  else if function ∈ CTRL_FUNCS then
    (0, true)
  else
    (0, false)

/-! #### Arithmetic helper lemmas -/

lemma and_255_eq_mod (x : ℕ) : x &&& 0xFF = x % 256 := by
  have h := Nat.and_pow_two_sub_one_eq_mod x 8
  norm_num at h
  exact h

lemma and_mask24_eq_mod (x : ℕ) : x &&& 0xFFFFFF = x % 16777216 := by
  have h := Nat.and_pow_two_sub_one_eq_mod x 24
  norm_num at h
  exact h

lemma pack_ext_arith (b c n a : ℕ) :
    pack_ext b c n a =
      (b % 256) * 16777216 + (c % 256) * 65536 + (n % 256) * 256 + (a % 256) := by
  unfold pack_ext
  rw [and_255_eq_mod, and_255_eq_mod, and_255_eq_mod, and_255_eq_mod,
    Nat.shiftLeft_eq, Nat.shiftLeft_eq, Nat.shiftLeft_eq]
  have hb : b % 256 < 256 := Nat.mod_lt _ (by norm_num)
  have hc : c % 256 < 256 := Nat.mod_lt _ (by norm_num)
  have hn : n % 256 < 256 := Nat.mod_lt _ (by norm_num)
  have ha : a % 256 < 256 := Nat.mod_lt _ (by norm_num)
  rw [Nat.or_assoc, Nat.or_assoc]
  rw [Nat.mul_comm (n % 256) (2 ^ 8)]
  rw [← Nat.mul_add_lt_is_or (i := 8) (by omega) (n % 256)]
  rw [Nat.mul_comm (c % 256) (2 ^ 16)]
  rw [← Nat.mul_add_lt_is_or (i := 16) (by norm_num; omega) (c % 256)]
  rw [Nat.mul_comm (b % 256) (2 ^ 24)]
  rw [← Nat.mul_add_lt_is_or (i := 24) (by norm_num; omega) (b % 256)]
  norm_num
  ring

/-- C5: for all branch, crate, station, subaddress in [0,255],
unpack_ext (pack_ext b c n a) = (b, c, n, a): packing masks each field
to 8 bits and concatenates them, and unpacking is its exact inverse on
byte-range inputs (both functions are total, with no failure mode). -/
theorem pack_unpack_roundtrip (b c n a : ℕ)
    (hb : b ≤ 255) (hc : c ≤ 255) (hn : n ≤ 255) (ha : a ≤ 255) :
    unpack_ext (pack_ext b c n a) = (b, c, n, a) := by
  rw [pack_ext_arith]
  unfold unpack_ext
  rw [and_255_eq_mod, and_255_eq_mod, and_255_eq_mod, and_255_eq_mod,
    Nat.shiftRight_eq_div_pow, Nat.shiftRight_eq_div_pow, Nat.shiftRight_eq_div_pow]
  rw [Nat.mod_eq_of_lt (by omega), Nat.mod_eq_of_lt (by omega),
    Nat.mod_eq_of_lt (by omega), Nat.mod_eq_of_lt (by omega)]
  norm_num
  refine ⟨by omega, by omega, by omega, by omega⟩

/-- Witness for C5 at (1, 2, 3, 4). -/
theorem pack_unpack_roundtrip_witness :
    unpack_ext (pack_ext 1 2 3 4) = (1, 2, 3, 4) :=
  pack_unpack_roundtrip 1 2 3 4 (by decide) (by decide) (by decide) (by decide)

/-- C4: over 0..31 the three classes are pairwise disjoint and jointly
exhaustive and classify assigns exactly one class; outside 0..31 the
classification fails (no class is assigned) and the mock cycle reports
the invalid-function outcome (0, false). -/
theorem classify_total_and_disjoint (f : ℤ) :
    (0 ≤ f ∧ f ≤ 31 →
      (f ∈ READ_FUNCS ∨ f ∈ WRITE_FUNCS ∨ f ∈ CTRL_FUNCS) ∧
      ¬(f ∈ READ_FUNCS ∧ f ∈ WRITE_FUNCS) ∧
      ¬(f ∈ READ_FUNCS ∧ f ∈ CTRL_FUNCS) ∧
      ¬(f ∈ WRITE_FUNCS ∧ f ∈ CTRL_FUNCS) ∧
      ((f ∈ READ_FUNCS → classify f = some .Read) ∧
       (f ∈ WRITE_FUNCS → classify f = some .Write) ∧
       (f ∈ CTRL_FUNCS → classify f = some .Control))) ∧
    (¬(0 ≤ f ∧ f ≤ 31) →
      classify f = none ∧ ∀ ext data, mockCfsa f ext data = (0, false)) := by
  simp only [classify, mockCfsa, READ_FUNCS, WRITE_FUNCS, CTRL_FUNCS,
    Finset.mem_union, Finset.mem_Icc]
  constructor
  · intro hf
    refine ⟨by omega, by omega, by omega, by omega, ?_, ?_, ?_⟩
    · intro h; rw [if_pos h]
    · intro h
      rw [if_neg (by omega), if_pos h]
    · intro h
      rw [if_neg (by omega), if_neg (by omega), if_pos h]
  · intro hf
    constructor
    · rw [if_neg (by omega), if_neg (by omega), if_neg (by omega)]
    · intro ext data
      rw [if_neg (by omega), if_neg (by omega), if_neg (by omega)]

/-- Witness for C4 at f = 5 (in range, Read) and f = 40 (out of range). -/
theorem classify_total_and_disjoint_witness :
    classify 5 = some .Read ∧ classify 40 = none ∧ mockCfsa 40 7 none = (0, false) := by
  refine ⟨?_, ?_, ?_⟩
  · exact ((classify_total_and_disjoint 5).1 (by norm_num)).2.2.2.2.1
      (by simp [READ_FUNCS])
  · exact (((classify_total_and_disjoint 40).2 (by norm_num))).1
  · exact (((classify_total_and_disjoint 40).2 (by norm_num))).2 7 none

/-- C6: the mock backend cycle is a pure function of its arguments:
a Read code 0..7 yields ((ext and 0xFFFFFF) xor (f shl 12), Q=true),
a Write code 16..23 echoes the supplied data (0 when absent) with
Q=true, and a Control code (8..15 or 24..31) yields (0, Q=true). -/
theorem mockCfsa_characterization (f : ℤ) (ext : ℕ) (data : Option ℕ) :
    (0 ≤ f → f ≤ 7 →
      mockCfsa f ext data = ((ext &&& 0xFFFFFF) ^^^ (f.toNat <<< 12), true)) ∧
    (16 ≤ f → f ≤ 23 → mockCfsa f ext data = (data.getD 0, true)) ∧
    ((8 ≤ f ∧ f ≤ 15) ∨ (24 ≤ f ∧ f ≤ 31) → mockCfsa f ext data = (0, true)) := by
  refine ⟨?_, ?_, ?_⟩
  · intro h0 h7
    have hmem : f ∈ READ_FUNCS := by
      simp only [READ_FUNCS, Finset.mem_Icc]; omega
    simp only [mockCfsa, if_pos hmem]
    have hxlt : (ext &&& 0xFFFFFF) ^^^ (f.toNat <<< 12) < 2 ^ 24 := by
      apply Nat.xor_lt_two_pow
      · rw [and_mask24_eq_mod]
        have := Nat.mod_lt ext (y := 16777216) (by norm_num)
        norm_num
        omega
      · have hf : f.toNat ≤ 7 := by omega
        calc f.toNat <<< 12 = f.toNat * 2 ^ 12 := Nat.shiftLeft_eq _ _
          _ ≤ 7 * 2 ^ 12 := by
              exact Nat.mul_le_mul_right _ hf
          _ < 2 ^ 24 := by norm_num
    rw [and_mask24_eq_mod ((ext &&& 0xFFFFFF) ^^^ (f.toNat <<< 12))]
    rw [Nat.mod_eq_of_lt (by norm_num at hxlt ⊢; omega)]
  · intro h16 h23
    have hmem : f ∈ WRITE_FUNCS := by
      simp only [WRITE_FUNCS, Finset.mem_Icc]; omega
    have hnotr : f ∉ READ_FUNCS := by
      simp only [READ_FUNCS, Finset.mem_Icc]; omega
    simp only [mockCfsa, if_neg hnotr, if_pos hmem]
  · intro h
    have hmem : f ∈ CTRL_FUNCS := by
      simp only [CTRL_FUNCS, Finset.mem_union, Finset.mem_Icc]; omega
    have hnotr : f ∉ READ_FUNCS := by
      simp only [READ_FUNCS, Finset.mem_Icc]; omega
    have hnotw : f ∉ WRITE_FUNCS := by
      simp only [WRITE_FUNCS, Finset.mem_Icc]; omega
    simp only [mockCfsa, if_neg hnotr, if_neg hnotw, if_pos hmem]

/-- Witness for C6 at a read, a write and a control code. -/
theorem mockCfsa_characterization_witness :
    mockCfsa 1 0xABCDEF none = ((0xABCDEF &&& 0xFFFFFF) ^^^ ((1 : ℤ).toNat <<< 12), true) ∧
    mockCfsa 17 5 (some 99) = (99, true) ∧
    mockCfsa 25 5 none = (0, true) := by
  refine ⟨?_, ?_, ?_⟩
  · exact (mockCfsa_characterization 1 0xABCDEF none).1 (by norm_num) (by norm_num)
  · exact (mockCfsa_characterization 17 5 (some 99)).2.1 (by norm_num) (by norm_num)
  · exact (mockCfsa_characterization 25 5 none).2.2 (Or.inr (by norm_num))

/-! ### camacdaq_py/config_parser.py -/

/-- ModuleEntry dataclass: name, branch, crate, station, optional comment. -/
structure ModuleEntry where
  name : String
  branch : ℤ
  crate : ℤ
  station : ℤ
  comment : Option String := none
deriving DecidableEq, Repr

/-- Python str.strip: remove leading and trailing whitespace. -/
def pyStrip (cs : List Char) : List Char :=
  ((cs.dropWhile Char.isWhitespace).reverse.dropWhile Char.isWhitespace).reverse

/-- str.splitlines restricted to newline separators. -/
def splitNl (cs : List Char) : List (List Char) :=
  cs.foldr (fun c acc =>
    if c = '\n' then [] :: acc
    else match acc with
      | l :: ls => (c :: l) :: ls
      | [] => [[c]]) [[]]

/-- re.split of a run of whitespace with a maxsplit bound: at most
fuel splits are made; once the bound is reached the remainder is kept
verbatim as the final field. -/
def splitLimit : ℕ → List Char → List (List Char)
  | 0, cs => [cs]
  | fuel + 1, cs =>
    let tok := cs.takeWhile (fun c => !c.isWhitespace)
    let rest := cs.dropWhile (fun c => !c.isWhitespace)
    match rest with
    | [] => [tok]
    | _ :: _ => tok :: splitLimit fuel (rest.dropWhile Char.isWhitespace)

/-- Value of a nonempty all-digit string, else none. -/
def digitsVal? (cs : List Char) : Option ℕ :=
  if cs ≠ [] ∧ cs.all Char.isDigit then
    some (cs.foldl (fun v c => v * 10 + (c.toNat - '0'.toNat)) 0)
  else none

/-- Python int(str): optional sign then decimal digits, ValueError
modelled as none. -/
def pyInt? (cs : List Char) : Option ℤ :=
  match cs with
  | '+' :: rest => (digitsVal? rest).map (fun v => (v : ℤ))
  | '-' :: rest => (digitsVal? rest).map (fun v => -(v : ℤ))
  | _ => (digitsVal? cs).map (fun v => (v : ℤ))

/-- Python dict assignment d[k] = v: replace in place if the key is
present, else append (insertion order is preserved). -/
def dictInsert : List (String × ModuleEntry) → String → ModuleEntry →
    List (String × ModuleEntry)
  | [], k, v => [(k, v)]
  | (k', v') :: rest, k, v =>
    if k' = k then (k, v) :: rest else (k', v') :: dictInsert rest k v

/-- str.upper for the ASCII names used as registry keys. -/
def pyUpper (cs : List Char) : List Char := cs.map Char.toUpper

/-- One iteration of the parse_cit_cfg loop body for a single raw
line: strip, skip blanks and comment-marker lines, split into at most
five fields, skip lines with fewer than four fields or a non-integer
branch, crate or station, else store the entry under the upper-cased
name. -/
def processLine (entries : List (String × ModuleEntry)) (rawLine : List Char) :
    List (String × ModuleEntry) :=
  let line := pyStrip rawLine
  match line with
  | [] => entries
  | c :: _ =>
    if c = '*' ∨ c = '#' ∨ c = '!' ∨ c = ';' then entries
    else
      match splitLimit 4 line with
      | nm :: p1 :: p2 :: p3 :: rest =>
        match pyInt? p1, pyInt? p2, pyInt? p3 with
        | some branch, some crate, some station =>
          let comment : Option String := rest.head?.map (fun cm => ⟨cm⟩)
          dictInsert entries ⟨pyUpper nm⟩ ⟨⟨nm⟩, branch, crate, station, comment⟩
        | _, _, _ => entries
      | _ => entries

/-- parse_cit_cfg: fold the line processor over the lines of the text. -/
def parse_cit_cfg (text : String) : List (String × ModuleEntry) :=
  (splitNl text.toList).foldl processLine []

/-! #### Parser lemmas -/

lemma dropWhile_ws_of_all (cs : List Char)
    (h : ∀ c ∈ cs, c.isWhitespace = false) :
    cs.dropWhile Char.isWhitespace = cs := by
  cases cs with
  | nil => rfl
  | cons c rest =>
    rw [List.dropWhile_cons]
    simp [h c (by simp)]

lemma pyStrip_of_no_ws (cs : List Char)
    (h : ∀ c ∈ cs, c.isWhitespace = false) : pyStrip cs = cs := by
  unfold pyStrip
  rw [dropWhile_ws_of_all cs h,
    dropWhile_ws_of_all cs.reverse (by intro c hc; exact h c (List.mem_reverse.mp hc)),
    List.reverse_reverse]

lemma splitLimit_of_no_ws (fuel : ℕ) (cs : List Char)
    (h : ∀ c ∈ cs, c.isWhitespace = false) : splitLimit fuel cs = [cs] := by
  cases fuel with
  | zero => rfl
  | succ k =>
    unfold splitLimit
    have htake : cs.takeWhile (fun c => !c.isWhitespace) = cs := by
      rw [List.takeWhile_eq_self_iff]
      intro c hc; simp [h c hc]
    have hdrop : cs.dropWhile (fun c => !c.isWhitespace) = [] := by
      rw [List.dropWhile_eq_nil_iff]
      intro c hc; simp [h c hc]
    simp only [htake, hdrop]

/-- The mixed configuration text used to settle C7: comment lines
under every marker, a blank line, three valid module lines (one with a
multi-word trailing comment) and one malformed line whose crate field
is not an integer. -/
def mixedCfgText : String :=
  "# header\n* star\n! bang\n; semi\n\nQVT 1 1 2\nGATE 1 1 9 gate module\nBAD 1 x 3\nADC 1 2 5 multi word comment\n"

/-- C7: blank lines, comment-marker lines and lines with a non-integer
branch, crate or station field leave the registry untouched, and the
mixed text above therefore loads exactly its three valid entries, the
malformed line being silently skipped without the load failing. -/
theorem parse_mixed_text_exact (entries : List (String × ModuleEntry))
    (raw : List Char) :
    (pyStrip raw = [] → processLine entries raw = entries) ∧
    (∀ c rest, pyStrip raw = c :: rest →
      (c = '*' ∨ c = '#' ∨ c = '!' ∨ c = ';') →
      processLine entries raw = entries) ∧
    (∀ nm p1 p2 p3 rest, splitLimit 4 (pyStrip raw) = nm :: p1 :: p2 :: p3 :: rest →
      (pyInt? p1 = none ∨ pyInt? p2 = none ∨ pyInt? p3 = none) →
      processLine entries raw = entries) ∧
    parse_cit_cfg mixedCfgText =
      [("QVT", ⟨"QVT", 1, 1, 2, none⟩),
       ("GATE", ⟨"GATE", 1, 1, 9, some "gate module"⟩),
       ("ADC", ⟨"ADC", 1, 2, 5, some "multi word comment"⟩)] := by
  refine ⟨?_, ?_, ?_, ?_⟩
  · intro h
    unfold processLine
    rw [h]
  · intro c rest h hc
    unfold processLine
    rw [h]
    simp only [if_pos hc]
  · intro nm p1 p2 p3 rest hsplit hbad
    unfold processLine
    cases hstrip : pyStrip raw with
    | nil => rfl
    | cons c cs =>
      rw [hstrip] at hsplit
      simp only []
      split
      · rfl
      · rw [hsplit]
        cases hp1 : pyInt? p1 <;> cases hp2 : pyInt? p2 <;> cases hp3 : pyInt? p3 <;>
          first
            | rfl
            | simp_all
  · decide

/-- Witness for C7: a blank line, a comment line and the malformed
line of the mixed text each leave a concrete registry unchanged. -/
theorem parse_mixed_text_exact_witness :
    processLine [("A", ⟨"A", 1, 1, 1, none⟩)] "   ".toList = [("A", ⟨"A", 1, 1, 1, none⟩)] ∧
    processLine [] "# note".toList = [] ∧
    processLine [] "BAD 1 x 3".toList = [] := by
  refine ⟨?_, ?_, ?_⟩
  · exact (parse_mixed_text_exact _ _).1 (by decide)
  · exact (parse_mixed_text_exact [] "# note".toList).2.1 '#' " note".toList
      (by decide) (by decide)
  · exact (parse_mixed_text_exact [] "BAD 1 x 3".toList).2.2.1
      "BAD".toList "1".toList "x".toList "3".toList [] (by decide)
      (Or.inr (Or.inl (by decide)))

/-- C8 counterexample: the comma-separated form of a module line is
not parsed into the entry that its whitespace-separated form yields;
the comma line produces no entry at all. -/
theorem comma_line_counterexample :
    parse_cit_cfg "QVT,1,1,2" = [] ∧
    parse_cit_cfg "QVT 1 1 2" = [("QVT", ⟨"QVT", 1, 1, 2, none⟩)] ∧
    parse_cit_cfg "QVT,1,1,2" ≠ parse_cit_cfg "QVT 1 1 2" := by
  refine ⟨by decide, by decide, by decide⟩

/-- C8 amended: parse_cit_cfg separates fields on whitespace only; a
line containing no whitespace at all (such as a fully comma-separated
module line) is always skipped, because it splits into a single field,
while the whitespace-separated form of the same line parses normally. -/
theorem whitespace_only_separator (entries : List (String × ModuleEntry))
    (raw : List Char) :
    ((∀ c ∈ raw, c.isWhitespace = false) → processLine entries raw = entries) ∧
    parse_cit_cfg "QVT 1 1 2" = [("QVT", ⟨"QVT", 1, 1, 2, none⟩)] := by
  constructor
  · intro h
    unfold processLine
    rw [pyStrip_of_no_ws raw h]
    cases hraw : raw with
    | nil => rfl
    | cons c cs =>
      simp only []
      split
      · rfl
      · have hall : ∀ x ∈ c :: cs, x.isWhitespace = false := by
          rw [← hraw]; exact h
        rw [splitLimit_of_no_ws 4 (c :: cs) hall]
  · decide

/-- Witness for C8 amended: the comma-only line changes nothing. -/
theorem whitespace_only_separator_witness :
    processLine [] "QVT,1,1,2".toList = [] :=
  (whitespace_only_separator [] "QVT,1,1,2".toList).1 (by decide)

/-! ### camac_backend_win.py — CamacBackendNI, the auto-probing backend

The byte transport (a pyvisa GPIB resource) is abstracted as a state
machine Dev: write may raise (modelled as a false flag, as caught by
the candidate loop), and read is the tolerant _r(-, -, tolerate_short
= True) used throughout cfsa, which turns exceptions into an empty
byte string and never raises. -/

/-- The four N-A-F encoding candidates, in their fixed priority order.
_enc_triplet_msblow is a distinct candidate whose byte function merely
coincides with _enc_triplet_big. -/
inductive EncId where
  | big
  | little
  | msblow
  | hdr
deriving DecidableEq, Repr

/-- The 24-bit command word ((n and 0x1F) shl 11) or ((a and 0x0F)
shl 7) or ((f and 0x3F) shl 1) shared by all encoders. -/
def encCmd (n a f : ℕ) : ℕ :=
  ((n &&& 0x1F) <<< 11) ||| ((a &&& 0x0F) <<< 7) ||| ((f &&& 0x3F) <<< 1)

/-- int.to_bytes(3, big): the three bytes of a value below 2^24,
most significant first. -/
def be3 (x : ℕ) : List ℕ :=
  [(x >>> 16) &&& 0xFF, (x >>> 8) &&& 0xFF, x &&& 0xFF]

/-- The outbound bytes of each encoder
(_enc_triplet_big / _little / _msblow / _with_data_header). -/
def encBytes : EncId → ℕ → ℕ → ℕ → ℕ → Bool → List ℕ
  | .big, n, a, f, _, _ => be3 (encCmd n a f)
  | .little, n, a, f, _, _ => (be3 (encCmd n a f)).reverse
  | .msblow, n, a, f, _, _ => be3 (encCmd n a f)
  | .hdr, n, a, f, _, _ => 0x31 :: be3 (encCmd n a f)

/-- _needs_data_after_cmd: every current encoder sends only the
command, so write data always follows separately. -/
def needsDataAfterCmd (_ : EncId) : Bool := true

/-- struct.pack(greater-than I, data)[1:] — the low three bytes of the
data word, big-endian; struct.error on a value outside 32 bits is
modelled as none (it is raised inside the candidate try block). -/
def packDataBE3 (data : ℕ) : Option (List ℕ) :=
  if data < 4294967296 then
    some [(data >>> 16) &&& 0xFF, (data >>> 8) &&& 0xFF, data &&& 0xFF]
  else none

/-- The full outbound payload of one candidate: the encoder bytes,
with the 3-byte data word appended for non-read cycles. -/
def payloadOf? (e : EncId) (n a f data : ℕ) : Option (List ℕ) :=
  let base := encBytes e n a f data (decide (f < 16))
  if ¬(f < 16) ∧ needsDataAfterCmd e = true then
    (packDataBE3 data).map (fun tail => base ++ tail)
  else some base

/-- _parse_status: bit 0 is Q, bit 1 is X. -/
def parseStatus (b : ℕ) : ℕ × ℕ := (b &&& 1, (b >>> 1) &&& 1)

/-- Q and X from the best-effort status read: decoded from the first
byte when one arrived, else (0, 0). -/
def statusQX : List ℕ → ℕ × ℕ
  | b :: _ => parseStatus b
  | [] => (0, 0)

/-- A byte transport with state type σ: write returns a success flag
(false = the transport raised) and read returns whatever bytes arrived
(possibly short or empty; it never raises, matching tolerate_short). -/
structure Dev (σ : Type) where
  write : σ → List ℕ → Bool × σ
  read : σ → ℕ → List ℕ × σ

/-- A cycle result (Q, X, data or None). -/
abbrev CycleRes := ℕ × ℕ × Option ℕ

/-- One candidate attempt of the cfsa loop body: build the payload,
write it, then either the data-phase read path (3 bytes, one extra
short read if needed, fail the candidate if still short) followed by
the status byte, or the status-only path. none means the candidate
failed and the loop continues. -/
def attempt {σ : Type} (D : Dev σ) (n a f data : ℕ) (statusOnly : Bool) (e : EncId)
    (s : σ) : Option CycleRes × σ :=
  match payloadOf? e n a f data with
  | none => (none, s)
  | some payload =>
    match D.write s payload with
    | (false, s1) => (none, s1)
    | (true, s1) =>
      if f < 16 ∧ statusOnly = false then
        match D.read s1 3 with
        | (datab0, s2) =>
          match (if datab0.length < 3 then
                  match D.read s2 1 with
                  | (more, s3) => (datab0 ++ more, s3)
                 else (datab0, s2)) with
          | (datab, s3) =>
            if 3 ≤ datab.length then
              match D.read s3 1 with
              | (statusb, s4) =>
                (some ((statusQX statusb).1, (statusQX statusb).2,
                  some ((datab.getD 0 0 <<< 16) ||| (datab.getD 1 0 <<< 8) |||
                    datab.getD 2 0)), s4)
            else (none, s3)
      else
        match D.read s1 1 with
        | (statusb, s2) =>
          (some ((statusQX statusb).1, (statusQX statusb).2, none), s2)

/-- The candidate loop: first successful attempt wins, carrying the
candidate that produced it; the transport state threads through the
failed attempts. -/
def sweep {σ : Type} (D : Dev σ) (n a f data : ℕ) (statusOnly : Bool) :
    List EncId → σ → Option (CycleRes × EncId) × σ
  | [], s => (none, s)
  | e :: rest, s =>
    match attempt D n a f data statusOnly e s with
    | (some r, s1) => (some (r, e), s1)
    | (none, s1) => sweep D n a f data statusOnly rest s1

/-- The persistent backend state: the cached working encoder
(_naf_encoder, none while unresolved) and the status-only override
set (_expect_status_only_overrides). -/
structure BState where
  cache : Option EncId
  overrides : List ℕ
deriving DecidableEq, Repr

/-- Candidates tried by one cfsa call: the full priority list while
unresolved, only the cached encoder once one is learned. -/
def candidateList : Option EncId → List EncId
  | none => [.big, .little, .msblow, .hdr]
  | some e => [e]

/-- CamacBackendNI.cfsa: one CAMAC cycle with auto-probing. Sweeps the
candidate list; the first success caches its encoder and returns; if
every candidate fails the call returns (0, 0, data 0) on the
data-read path and (0, 0, None) otherwise, leaving the state as it
was, and never raises. -/
def cfsa {σ : Type} (D : Dev σ) (f n a data : ℕ) (st : BState) (s : σ) :
    CycleRes × BState × σ :=
  match sweep D n a f data (st.overrides.contains f) (candidateList st.cache) s with
  | (some (r, e), s1) => (r, ⟨some e, st.overrides⟩, s1)
  | (none, s1) =>
    ((if f < 16 ∧ st.overrides.contains f = false then (0, 0, some 0)
      else (0, 0, none)), st, s1)

/-- A transport observer: same behavior as D, recording the size of
every read request issued to the device. -/
def instr {σ : Type} (D : Dev σ) : Dev (σ × List ℕ) where
  write := fun p bs =>
    match D.write p.1 bs with
    | (ok, s1) => (ok, (s1, p.2))
  read := fun p m =>
    match D.read p.1 m with
    | (bs, s1) => (bs, (s1, p.2 ++ [m]))

/-- A transport on which every write raises and every read times out. -/
def devFailAll : Dev Unit := ⟨fun s _ => (false, s), fun s _ => ([], s)⟩

/-- A transport that accepts every write and returns no bytes. -/
def devWriteOk : Dev Unit := ⟨fun s _ => (true, s), fun s _ => ([], s)⟩

/-! #### Probe-loop lemmas -/

lemma sweep_append {σ : Type} (D : Dev σ) (n a f data : ℕ) (so : Bool)
    (l1 l2 : List EncId) (s : σ) :
    sweep D n a f data so (l1 ++ l2) s =
      match sweep D n a f data so l1 s with
      | (none, s1) => sweep D n a f data so l2 s1
      | (some r, s1) => (some r, s1) := by
  induction l1 generalizing s with
  | nil => simp [sweep]
  | cons e rest ih =>
    simp only [List.cons_append, sweep]
    cases h : attempt D n a f data so e s with
    | mk r s1 =>
      cases r with
      | none => simp [ih]
      | some r0 => simp

/-- C1: the probe state only moves forward. While unresolved, the
candidates are tried in the fixed priority order and the first
success locks its candidate and returns its result immediately, the
failed candidates before it having threaded the transport state; once
locked on c, a call attempts only c, a success passes through with
the lock kept, and a failure of c yields the all-failed result while
the lock stays on c (it is never cleared). -/
theorem probe_lock_invariant {σ : Type} (D : Dev σ) (f n a data : ℕ) (ov : List ℕ) :
    (∀ (pre post : List EncId) (e : EncId) (s s1 : σ) (r : CycleRes) (s2 : σ),
      candidateList none = pre ++ e :: post →
      sweep D n a f data (ov.contains f) pre s = (none, s1) →
      attempt D n a f data (ov.contains f) e s1 = (some r, s2) →
      cfsa D f n a data ⟨none, ov⟩ s = (r, ⟨some e, ov⟩, s2)) ∧
    (∀ (c : EncId) (s : σ) (r : CycleRes) (s2 : σ),
      attempt D n a f data (ov.contains f) c s = (some r, s2) →
      cfsa D f n a data ⟨some c, ov⟩ s = (r, ⟨some c, ov⟩, s2)) ∧
    (∀ (c : EncId) (s s2 : σ),
      attempt D n a f data (ov.contains f) c s = (none, s2) →
      cfsa D f n a data ⟨some c, ov⟩ s =
        ((if f < 16 ∧ ov.contains f = false then (0, 0, some 0) else (0, 0, none)),
         ⟨some c, ov⟩, s2)) := by
  refine ⟨?_, ?_, ?_⟩
  · intro pre post e s s1 r s2 hdecomp hpre hsucc
    unfold cfsa
    simp only []
    rw [hdecomp, sweep_append, hpre]
    simp only [sweep, hsucc]
  · intro c s r s2 hsucc
    unfold cfsa
    simp only [candidateList, sweep, hsucc]
  · intro c s s2 hfail
    unfold cfsa
    simp only [candidateList, sweep, hfail]

/-- Witness for C1: with a transport that accepts writes and returns
no bytes, a status-only call (f = 9 in the override set) locks the
first candidate and returns (0, 0, None). -/
theorem probe_lock_invariant_witness :
    cfsa devWriteOk 9 1 0 0 ⟨none, [9]⟩ () = ((0, 0, none), ⟨some .big, [9]⟩, ()) :=
  (probe_lock_invariant devWriteOk 9 1 0 0 [9]).1 [] [.little, .msblow, .hdr] .big
    () () (0, 0, none) () (by decide) (by decide) (by decide)

/-- C2 counterexample: f = 8 is a Control code by the function
classification, yet when every candidate fails a fresh backend returns
data 0 (present), not an absent data value, because f = 8 takes the
data-read path of cfsa. -/
theorem all_fail_control_counterexample :
    (8 : ℤ) ∈ CTRL_FUNCS ∧
    cfsa devFailAll 8 1 0 0 ⟨none, []⟩ () = ((0, 0, some 0), ⟨none, []⟩, ()) ∧
    (some 0 : Option ℕ) ≠ none := by
  refine ⟨by decide, by decide, by decide⟩

/-- C2 amended: when every candidate of the sweep fails, cfsa returns
(Q = 0, X = 0) and never raises, with data 0 for a cycle that takes
the data-read path (f below 16 and not in the status-only override
set — including control codes 8..15 not in that set) and an absent
data value for f at least 16 or a status-only cycle; the backend
state is left unchanged. -/
theorem all_fail_result {σ : Type} (D : Dev σ) (f n a data : ℕ) (st : BState)
    (s s' : σ)
    (hfail : sweep D n a f data (st.overrides.contains f)
      (candidateList st.cache) s = (none, s')) :
    cfsa D f n a data st s =
      ((if f < 16 ∧ st.overrides.contains f = false then (0, 0, some 0)
        else (0, 0, none)), st, s') := by
  unfold cfsa
  rw [hfail]

/-- Witness for C2 amended: a read (f = 0) on the always-failing
transport returns (0, 0, data 0), and a write (f = 16) returns
(0, 0, None). -/
theorem all_fail_result_witness :
    cfsa devFailAll 0 1 0 0 ⟨none, []⟩ () = ((0, 0, some 0), ⟨none, []⟩, ()) ∧
    cfsa devFailAll 16 1 0 0 ⟨none, []⟩ () = ((0, 0, none), ⟨none, []⟩, ()) := by
  constructor
  · have h := all_fail_result devFailAll 0 1 0 0 ⟨none, []⟩ () () (by decide)
    rw [h]
    decide
  · have h := all_fail_result devFailAll 16 1 0 0 ⟨none, []⟩ () () (by decide)
    rw [h]
    decide

/-- C10: for a cycle that skips the data phase (f at least 16, or f in
the status-only override set), an unresolved backend locks onto the
first candidate whose payload is written without a transport
exception: no device confirmation is needed, the result data is
absent, Q and X come from the best-effort status byte, and when no
status byte arrives the flags are (0, 0). -/
theorem write_lock_on_write_success {σ : Type} (D : Dev σ) (f n a data : ℕ)
    (ov : List ℕ) (s s1 : σ) (pre post : List EncId) (e : EncId) (p : List ℕ)
    (hcond : ¬(f < 16 ∧ ov.contains f = false))
    (hdecomp : candidateList none = pre ++ e :: post)
    (hpre : sweep D n a f data (ov.contains f) pre s = (none, s1))
    (hpay : payloadOf? e n a f data = some p)
    (hw : (D.write s1 p).1 = true) :
    cfsa D f n a data ⟨none, ov⟩ s =
      (((statusQX (D.read (D.write s1 p).2 1).1).1,
        (statusQX (D.read (D.write s1 p).2 1).1).2, none),
       ⟨some e, ov⟩, (D.read (D.write s1 p).2 1).2) ∧
    ((D.read (D.write s1 p).2 1).1 = [] →
      statusQX (D.read (D.write s1 p).2 1).1 = (0, 0)) := by
  constructor
  · have hsucc : attempt D n a f data (ov.contains f) e s1 =
        (some ((statusQX (D.read (D.write s1 p).2 1).1).1,
          (statusQX (D.read (D.write s1 p).2 1).1).2, none),
         (D.read (D.write s1 p).2 1).2) := by
      cases hw2 : D.write s1 p with
      | mk ok s2 =>
        cases ok with
        | false => rw [hw2] at hw; simp at hw
        | true =>
          simp only [attempt, hpay, hw2]
          rw [if_neg hcond]
    unfold cfsa
    simp only []
    rw [hdecomp, sweep_append, hpre]
    simp only [sweep, hsucc]
  · intro h
    rw [h]
    rfl

/-- Witness for C10: a write cycle (f = 16) on the accept-all
transport locks the first candidate with flags (0, 0) and no data. -/
theorem write_lock_on_write_success_witness :
    cfsa devWriteOk 16 1 0 0 ⟨none, []⟩ () = ((0, 0, none), ⟨some .big, []⟩, ()) :=
  (write_lock_on_write_success devWriteOk 16 1 0 0 [] () () []
    [.little, .msblow, .hdr] .big [0, 8, 32, 0, 0, 0]
    (by decide) (by decide) (by decide) (by decide) (by decide)).1

/-- The first candidate the sweep will try in a given probe state. -/
def firstCand : Option EncId → EncId
  | none => .big
  | some e => e

lemma attempt_instr_log {σ : Type} (D : Dev σ) (n a f data : ℕ) (so : Bool)
    (e : EncId) (s : σ) (l : List ℕ) :
    ∃ s' t, (attempt (instr D) n a f data so e (s, l)).2 = (s', l ++ t) ∧
      (¬(f < 16 ∧ so = false) → ∀ m ∈ t, m = 1) ∧
      ((f < 16 ∧ so = false) →
        ∀ p, payloadOf? e n a f data = some p → (D.write s p).1 = true → 3 ∈ t) := by
  cases hpay : payloadOf? e n a f data with
  | none =>
    refine ⟨s, [], by simp [attempt, hpay], by simp, ?_⟩
    intro _ p hp
    simp at hp
  | some p0 =>
    cases hw : D.write s p0 with
    | mk ok s1 =>
      cases ok with
      | false =>
        refine ⟨s1, [], ?_, by simp, ?_⟩
        · simp [attempt, hpay, instr, hw]
        · intro _ p hp hwt
          injection hp with hpp
          subst hpp
          rw [hw] at hwt
          simp at hwt
      | true =>
        by_cases hcond : f < 16 ∧ so = false
        · cases hr3 : D.read s1 3 with
          | mk bs3 s2 =>
            by_cases hshort : bs3.length < 3
            · cases hr1 : D.read s2 1 with
              | mk more s3 =>
                by_cases hlen : 3 ≤ (bs3 ++ more).length
                · cases hrs : D.read s3 1 with
                  | mk sb s4 =>
                    refine ⟨s4, [3, 1, 1], ?_, fun hc => absurd hcond hc,
                      fun _ _ _ _ => by decide⟩
                    have hlen2 : 3 ≤ bs3.length + more.length := by simpa using hlen
                    simp [attempt, hpay, instr, hw, hr3, hr1, hrs, hcond, hshort,
                      hlen2]
                · refine ⟨s3, [3, 1], ?_, fun hc => absurd hcond hc,
                    fun _ _ _ _ => by decide⟩
                  have hlen2 : ¬3 ≤ bs3.length + more.length := by simpa using hlen
                  simp [attempt, hpay, instr, hw, hr3, hr1, hcond, hshort, hlen2]
            · have hlen : 3 ≤ bs3.length := by omega
              cases hrs : D.read s2 1 with
              | mk sb s4 =>
                refine ⟨s4, [3, 1], ?_, fun hc => absurd hcond hc,
                  fun _ _ _ _ => by decide⟩
                simp [attempt, hpay, instr, hw, hr3, hrs, hcond, hshort, hlen]
        · cases hr1 : D.read s1 1 with
          | mk sb s2 =>
            refine ⟨s2, [1], ?_, ?_, fun hc => absurd hc hcond⟩
            · simp [attempt, hpay, instr, hw, hr1, hcond]
            · intro _ m hm
              simpa using hm

lemma sweep_instr_log {σ : Type} (D : Dev σ) (n a f data : ℕ) (so : Bool)
    (cs : List EncId) (s : σ) (l : List ℕ) :
    ∃ s' t, (sweep (instr D) n a f data so cs (s, l)).2 = (s', l ++ t) ∧
      (¬(f < 16 ∧ so = false) → ∀ m ∈ t, m = 1) := by
  induction cs generalizing s l with
  | nil => exact ⟨s, [], by simp [sweep], by simp⟩
  | cons e rest ih =>
    obtain ⟨s1, t1, h2, hones, _⟩ := attempt_instr_log D n a f data so e s l
    cases hat : attempt (instr D) n a f data so e (s, l) with
    | mk o p =>
      have hp : p = (s1, l ++ t1) := by rw [hat] at h2; exact h2
      subst hp
      cases o with
      | some r =>
        refine ⟨s1, t1, ?_, hones⟩
        simp [sweep, hat]
      | none =>
        obtain ⟨s2, t2, h2', hones2⟩ := ih s1 (l ++ t1)
        refine ⟨s2, t1 ++ t2, ?_, ?_⟩
        · simp only [sweep, hat]
          rw [h2', List.append_assoc]
        · intro hc m hm
          rcases List.mem_append.mp hm with h | h
          · exact hones hc m h
          · exact hones2 hc m h

lemma sweep_instr_log_head3 {σ : Type} (D : Dev σ) (n a f data : ℕ) (so : Bool)
    (e : EncId) (rest : List EncId) (s : σ) (p : List ℕ)
    (hcond : f < 16 ∧ so = false)
    (hpay : payloadOf? e n a f data = some p) (hw : (D.write s p).1 = true) :
    3 ∈ (sweep (instr D) n a f data so (e :: rest) (s, [])).2.2 := by
  obtain ⟨s1, t1, h2, _, hthree⟩ := attempt_instr_log D n a f data so e s []
  have h3 : 3 ∈ t1 := hthree hcond p hpay hw
  cases hat : attempt (instr D) n a f data so e (s, []) with
  | mk o p' =>
    have hp : p' = (s1, [] ++ t1) := by rw [hat] at h2; exact h2
    subst hp
    cases o with
    | some r =>
      simp only [sweep, hat]
      simpa using h3
    | none =>
      obtain ⟨s2, t2, h2', _⟩ := sweep_instr_log D n a f data so rest s1 ([] ++ t1)
      simp only [sweep, hat]
      have hval : (sweep (instr D) n a f data so rest (s1, [] ++ t1)).2.2 =
          (([] ++ t1) ++ t2) := by rw [h2']
      rw [hval]
      exact List.mem_append.mpr (Or.inl (by simpa using h3))

lemma cfsa_state_log {σ' : Type} (D' : Dev σ') (f n a data : ℕ) (st : BState)
    (s : σ') :
    (cfsa D' f n a data st s).2.2 =
      (sweep D' n a f data (st.overrides.contains f) (candidateList st.cache) s).2 := by
  unfold cfsa
  cases h : sweep D' n a f data (st.overrides.contains f) (candidateList st.cache) s with
  | mk o s1 =>
    cases o with
    | none => simp
    | some r =>
      cases r with
      | mk r0 e => simp

/-- C3: for a function code in the status-only override set, cfsa
issues only single-byte status reads to the transport — it never
issues a data-phase (3-byte) read request, whatever the code's
numeric value, because the override is consulted before the read path
is chosen. -/
theorem status_only_no_data_read {σ : Type} (D : Dev σ) (f n a data : ℕ)
    (st : BState) (s : σ) (hov : st.overrides.contains f = true) :
    (∀ m ∈ (cfsa (instr D) f n a data st (s, [])).2.2.2, m = 1) ∧
    3 ∉ (cfsa (instr D) f n a data st (s, [])).2.2.2 := by
  have hcond : ¬(f < 16 ∧ st.overrides.contains f = false) := by
    intro h
    rw [hov] at h
    exact absurd h.2 (by simp)
  obtain ⟨s', t, h2, hones⟩ := sweep_instr_log D n a f data
    (st.overrides.contains f) (candidateList st.cache) s []
  have hmain : ∀ m ∈ (cfsa (instr D) f n a data st (s, [])).2.2.2, m = 1 := by
    intro m hm
    rw [cfsa_state_log, h2] at hm
    simp only [List.nil_append] at hm
    exact hones hcond m hm
  refine ⟨hmain, fun h3 => ?_⟩
  have := hmain 3 h3
  omega

/-- Witness for C3: with f = 9 in the override set, no 3-byte read is
requested even though 9 takes the numeric read range (below 16). -/
theorem status_only_no_data_read_witness :
    3 ∉ (cfsa (instr devWriteOk) 9 1 0 0 ⟨none, [9]⟩ ((), [])).2.2.2 :=
  (status_only_no_data_read devWriteOk 9 1 0 0 ⟨none, [9]⟩ () (by decide)).2

/-- C9: a cfsa cycle issues a data-phase (3-byte) read exactly on the
path f below 16 and f not in the status-only override set: otherwise
every read request is the single status byte (in particular codes at
least 16 never read a data phase), while on the data path the 3-byte
read is issued as soon as the first candidate's payload is written
successfully — control codes 8..15 outside the override set included. -/
theorem data_read_exactly_when {σ : Type} (D : Dev σ) (f n a data : ℕ)
    (ov : List ℕ) (cache : Option EncId) (s : σ) :
    (¬(f < 16 ∧ ov.contains f = false) →
      ∀ m ∈ (cfsa (instr D) f n a data ⟨cache, ov⟩ (s, [])).2.2.2, m = 1) ∧
    (∀ p, f < 16 → ov.contains f = false →
      payloadOf? (firstCand cache) n a f data = some p →
      (D.write s p).1 = true →
      3 ∈ (cfsa (instr D) f n a data ⟨cache, ov⟩ (s, [])).2.2.2) := by
  constructor
  · intro hcond m hm
    obtain ⟨s', t, h2, hones⟩ := sweep_instr_log D n a f data
      (ov.contains f) (candidateList cache) s []
    rw [cfsa_state_log] at hm
    simp only [BState.overrides, BState.cache] at hm
    rw [h2] at hm
    simp only [List.nil_append] at hm
    exact hones hcond m hm
  · intro p hf hov hpay hw
    rw [cfsa_state_log]
    simp only [BState.overrides, BState.cache]
    cases cache with
    | none =>
      exact sweep_instr_log_head3 D n a f data (ov.contains f) .big
        [.little, .msblow, .hdr] s p ⟨hf, hov⟩ hpay hw
    | some e0 =>
      exact sweep_instr_log_head3 D n a f data (ov.contains f) e0
        [] s p ⟨hf, hov⟩ hpay hw

/-- Witness for C9: a fresh read cycle (f = 0) on the accept-all
transport issues the 3-byte data read. -/
theorem data_read_exactly_when_witness :
    3 ∈ (cfsa (instr devWriteOk) 0 1 0 0 ⟨none, []⟩ ((), [])).2.2.2 :=
  (data_read_exactly_when devWriteOk 0 1 0 0 [] none ()).2 [0, 8, 0]
    (by decide) (by decide) (by decide) (by decide)
